import Mathlib

/-!
# Verification of the plutus sync-engine core

A shallow embedding of the plutus repository's core data structures and
operations, with theorems settling the specification's claims about them.

Embedded components (file of origin in the Python source):
* `EventLog` — `plutus/net/event_log.py`: append-only length-prefixed log
  with optional entry-count/byte-size retention caps and optional file
  backing.
* `Envelope` / `MessageType` — `plutus/net/transport.py`: the wire envelope
  codec over msgpack.
* `DiffBroadcaster` — `plutus/net/broadcaster.py`: local-update suppression,
  bounded send queue, pending counter and drained signal.
* `WebSocketServer._handler` — `plutus/net/transport.py`: the hub's
  per-connection message loop (decode, spoofing defence, JOIN registration,
  fan-out).
* `Namespace` — `plutus/core/document.py`: the value whitelist, tuple
  normalization, and get/getitem over a Loro map.
* `CRDTStore` — `plutus/core/store.py`: update import and deep-value
  observation, over a model of the Loro operation-based CRDT.

Machine integers are modelled as `Nat`/`Int` with explicit `% 2 ^ w` where
the wire format fixes a width; byte strings are `List Nat`.
-/

namespace Plutus

/-- Byte strings, as in the Python `bytes` values the event log stores. -/
abbrev Bytes := List Nat

/-- Total byte size of a list of entries (the quantity the Python code
tracks incrementally in `EventLog._total_bytes`). -/
def sumLen (es : List Bytes) : Nat := (es.map List.length).sum

/-- `struct.pack("!I", n)`: 4-byte big-endian encoding of a length.
The Python call raises `struct.error` for `n ≥ 2 ^ 32`; theorems that use
`pack32` carry that bound as a hypothesis. -/
def pack32 (n : Nat) : Bytes :=
  [n / 2 ^ 24 % 256, n / 2 ^ 16 % 256, n / 2 ^ 8 % 256, n % 256]

/-- `struct.unpack("!I", data[0:4])`: read a 4-byte big-endian length from
the front of a byte string. -/
def be32 : Bytes → Nat
  | a :: b :: c :: d :: _ => ((a * 256 + b) * 256 + c) * 256 + d
  | _ => 0

/-- One on-disk frame: `[4-byte big-endian length][payload bytes]`. -/
def frame (e : Bytes) : Bytes := pack32 e.length ++ e

/-- The on-disk image of a list of entries: their frames, concatenated. -/
def framesOf : List Bytes → Bytes
  | [] => []
  | e :: rest => frame e ++ framesOf rest

/-- Fuel-indexed frame parser implementing `EventLog._load`'s loop: stop
when fewer than 4 bytes remain or the declared length overruns the data.
The fuel only bounds the number of frames; `loadFrames` supplies enough. -/
def loadFramesAux : Nat → Bytes → List Bytes
  | 0, _ => []
  | fuel + 1, data =>
    if data.length < 4 then []
    else
      let len := be32 data
      let rest := data.drop 4
      if rest.length < len then []
      else rest.take len :: loadFramesAux fuel (rest.drop len)

/-- `EventLog._load`: parse the `[u32 length][payload]` frame sequence,
stopping cleanly at the first truncated trailing frame. -/
def loadFrames (data : Bytes) : List Bytes := loadFramesAux data.length data

/-- State of `EventLog`: in-memory entries, the tracked byte total, the two
optional retention caps, and the backing file's byte content (`none` for a
purely in-memory log). -/
structure EventLog where
  entries : List Bytes
  totalBytes : Nat
  maxEntries : Option Nat
  maxBytes : Option Nat
  file : Option Bytes
deriving DecidableEq

/-- First `while` loop of `EventLog._enforce_limits`: pop the oldest entry
while the entry count exceeds the cap, adjusting the byte total. -/
def enforceEntriesCap (k : Nat) : List Bytes → Nat → List Bytes × Nat
  | [], tb => ([], tb)
  | e :: rest, tb =>
    if (e :: rest).length > k then enforceEntriesCap k rest (tb - e.length)
    else (e :: rest, tb)

/-- Second `while` loop of `EventLog._enforce_limits`: pop the oldest entry
while the byte total exceeds the cap and entries remain. -/
def enforceBytesCap (b : Nat) : List Bytes → Nat → List Bytes × Nat
  | [], tb => ([], tb)
  | e :: rest, tb =>
    if tb > b then enforceBytesCap b rest (tb - e.length)
    else (e :: rest, tb)

/-- `EventLog._enforce_limits`: apply the entry-count cap, then the
byte-size cap, when each is configured. -/
def enforceLimits (st : EventLog) : EventLog :=
  let p1 :=
    match st.maxEntries with
    | some k => enforceEntriesCap k st.entries st.totalBytes
    | none => (st.entries, st.totalBytes)
  let p2 :=
    match st.maxBytes with
    | some b => enforceBytesCap b p1.1 p1.2
    | none => p1
  { st with entries := p2.1, totalBytes := p2.2 }

/-- `EventLog._should_rewrite`: true when any retention cap is set. -/
def EventLog.shouldRewrite (st : EventLog) : Bool :=
  st.maxEntries.isSome || st.maxBytes.isSome

/-- `EventLog.append`: add the entry, enforce retention, then either
rewrite the backing file in full (when retention is configured) or append
one frame to it. -/
def EventLog.append (st : EventLog) (entry : Bytes) : EventLog :=
  let st' := enforceLimits
    { st with
      entries := st.entries ++ [entry]
      totalBytes := st.totalBytes + entry.length }
  match st'.file with
  | none => st'
  | some f =>
    if st'.shouldRewrite then { st' with file := some (framesOf st'.entries) }
    else { st' with file := some (f ++ frame entry) }

/-- A sequence of `append` calls, oldest first. -/
def EventLog.appendAll (st : EventLog) (l : List Bytes) : EventLog :=
  l.foldl EventLog.append st

/-- `EventLog.replay`: snapshot of the current entries in order. -/
def EventLog.replay (st : EventLog) : List Bytes := st.entries

/-- `EventLog.__init__`: construct a log with the given caps; when a
backing file exists its content is parsed into the initial entries (the
constructor does not re-apply retention to loaded entries). -/
def mkEventLog (maxE maxB : Option Nat) (file : Option Bytes) : EventLog :=
  match file with
  | none => ⟨[], 0, maxE, maxB, none⟩
  | some data => ⟨loadFrames data, sumLen (loadFrames data), maxE, maxB, some data⟩

/-- The last `k` elements of a list (all of it when it is shorter). -/
def lastN (k : Nat) (l : List α) : List α := l.drop (l.length - k)

/-- Msgpack values, as `unpack` can produce them with `raw=False`:
null, booleans, integers, strings, byte strings, sequences, and
string-keyed mappings. Floats are not modelled (no claim involves them),
and map keys are restricted to strings, the only keys the envelope codec
ever consults. -/
inductive MVal where
  | nil : MVal
  | bool (b : Bool) : MVal
  | int (n : Int) : MVal
  | str (s : String) : MVal
  | bin (b : Bytes) : MVal
  | arr (xs : List MVal) : MVal
  | map (kvs : List (String × MVal)) : MVal

/-- `d[key]` lookup in an unpacked msgpack mapping. -/
def mvalLookup : List (String × MVal) → String → Option MVal
  | [], _ => Option.none
  | (k, v) :: rest, key => if k = key then some v else mvalLookup rest key

/-- `key in d.keys()`. -/
def hasKey (kvs : List (String × MVal)) (key : String) : Bool :=
  (mvalLookup kvs key).isSome

/-- Modelled from the spec: the msgpack wire layer (`plutus._util.serialization`
delegates to the external `msgpack` library). A wire byte string either
fails to parse (`garbage`) or parses to the value that was packed;
`pack`/`unpack` are mutually inverse on supported values, per msgpack's
contract. The 64-bit range limit msgpack puts on packed integers is not
modelled. -/
inductive MPacket where
  | garbage : MPacket
  | packed (v : MVal) : MPacket

/-- `MessageType(IntEnum)` from `plutus/net/transport.py`. -/
inductive MessageType where
  | crdtUpdate | heartbeat | join | leave | snapshotRequest | snapshotResponse
deriving DecidableEq

/-- The integer wire code of each message kind. -/
def MessageType.code : MessageType → Int
  | .crdtUpdate => 1
  | .heartbeat => 2
  | .join => 3
  | .leave => 4
  | .snapshotRequest => 5
  | .snapshotResponse => 6

/-- Inverse lookup of `MessageType.code`. -/
def msgTypeOfCode (n : Int) : Option MessageType :=
  if n = 1 then some .crdtUpdate
  else if n = 2 then some .heartbeat
  else if n = 3 then some .join
  else if n = 4 then some .leave
  else if n = 5 then some .snapshotRequest
  else if n = 6 then some .snapshotResponse
  else Option.none

/-- `MessageType(value)` as Python evaluates it: an `IntEnum` looked up by
equality, under which `True == 1` (so a boolean `True` names code 1). -/
def msgTypeOf : MVal → Option MessageType
  | .int n => msgTypeOfCode n
  | .bool b => if b then some .crdtUpdate else Option.none
  | _ => Option.none

/-- `isinstance(x, int)` — true for Python ints and for bools, which are an
int subtype. -/
def MVal.isIntLike : MVal → Bool
  | .int _ => true
  | .bool _ => true
  | _ => false

/-- The integer a Python int-like value stands for (`True == 1`,
`False == 0`). -/
def MVal.asInt : MVal → Int
  | .int n => n
  | .bool b => if b then 1 else 0
  | _ => 0

/-- `isinstance(x, (bytes, bytearray))` — `unpack(raw=False)` only ever
produces `bytes`, modelled by the `bin` constructor. -/
def MVal.isBin : MVal → Bool
  | .bin _ => true
  | _ => false

/-- `bytes(x)` on a byte string. -/
def MVal.binVal : MVal → Bytes
  | .bin b => b
  | _ => []

/-- The `Envelope` dataclass: wire format wrapping CRDT bytes with routing
metadata. -/
structure Envelope where
  msgType : MessageType
  sender : Int
  target : Option Int
  payload : Bytes
  version : Int := 1
deriving DecidableEq

/-- `Envelope.encode`: pack the five self-describing header fields. -/
def Envelope.encode (e : Envelope) : MPacket :=
  .packed (.map
    [("v", .int e.version),
     ("t", .int e.msgType.code),
     ("s", .int e.sender),
     ("r", match e.target with | some t => .int t | Option.none => .nil),
     ("p", .bin e.payload)])

/-- `Envelope.decode`: unpack, then validate shape, required fields
`t`/`s`/`r`/`p`, sender, target, payload, the optional version (defaulting
to 1), and the message kind, in the source's order. -/
def Envelope.decode (w : MPacket) : Except String Envelope :=
  match w with
  | .garbage => .error "invalid envelope encoding"
  | .packed (.map d) =>
    if hasKey d "t" && hasKey d "s" && hasKey d "r" && hasKey d "p" then
      let s := (mvalLookup d "s").getD .nil
      let r := (mvalLookup d "r").getD .nil
      let p := (mvalLookup d "p").getD .nil
      let t := (mvalLookup d "t").getD .nil
      let vv := (mvalLookup d "v").getD (.int 1)
      if !s.isIntLike then .error "envelope sender must be an int"
      else if (match r with | .nil => false | r => !r.isIntLike) then
        .error "envelope target must be None or int"
      else if !p.isBin then .error "envelope payload must be bytes"
      else if !vv.isIntLike then
        .error "envelope version must be a positive int"
      else if vv.asInt < 1 then
        .error "envelope version must be a positive int"
      else
        match msgTypeOf t with
        | Option.none => .error "invalid message type in envelope"
        | some mt =>
          .ok
            { msgType := mt
              sender := s.asInt
              target := match r with | .nil => Option.none | _ => some r.asInt
              payload := p.binVal
              version := vv.asInt }
    else .error "envelope missing required fields"
  | .packed _ => .error "invalid envelope payload shape"

/-- Whether an `Except` result is the error branch. -/
def isErr : Except ε α → Bool
  | .error _ => true
  | .ok _ => false

/-- Declarative rejection predicate, written from the (amended) claim's
enumeration: not parseable; not a mapping; missing any of `t`/`s`/`r`/`p`
(a missing `v` is *not* rejected — it defaults to 1); sender failing the
integer check; a non-null target failing the integer check; a non-bytes
payload; a version failing the positive-integer check; an unknown message
kind. To be compared with `Envelope.decode`'s behaviour. -/
def decodeRejects (w : MPacket) : Bool :=
  match w with
  | .garbage => true
  | .packed (.map d) =>
    !(hasKey d "t" && hasKey d "s" && hasKey d "r" && hasKey d "p") ||
    !((mvalLookup d "s").getD .nil).isIntLike ||
    (match (mvalLookup d "r").getD .nil with
      | .nil => false
      | r => !r.isIntLike) ||
    !((mvalLookup d "p").getD .nil).isBin ||
    !((mvalLookup d "v").getD (.int 1)).isIntLike ||
    decide (((mvalLookup d "v").getD (.int 1)).asInt < 1) ||
    (msgTypeOf ((mvalLookup d "t").getD .nil)).isNone
  | .packed _ => true

/-- State of `DiffBroadcaster`: the suppress-next-local-update counter,
the bounded in-memory queue of pending local update blobs (capacity 1024),
the pending counter, whether the drained event is set, whether a transport
is bound, the bound event log (as a list of encoded envelopes) if any, and
the replica's peer id. -/
structure DiffBroadcaster where
  suppress : Nat
  queue : List Bytes
  pendingCount : Nat
  drained : Bool
  hasTransport : Bool
  eventLog : Option (List MPacket)
  peerId : Int

/-- `DiffBroadcaster.suppress_next_local_update`: skip one local update
callback. -/
def DiffBroadcaster.suppressNextLocalUpdate (st : DiffBroadcaster) : DiffBroadcaster :=
  { st with suppress := st.suppress + 1 }

/-- `DiffBroadcaster._on_local_update`: if the suppression counter is
positive, decrement it and return; with no transport, append a
`CRDT_UPDATE` envelope to the event log if one is bound; otherwise try a
non-blocking enqueue, dropping the blob when the queue is full, and on
success increment the pending counter, resetting the drained event on the
0→1 transition. -/
def DiffBroadcaster.onLocalUpdate (st : DiffBroadcaster) (updateBytes : Bytes) :
    DiffBroadcaster :=
  if st.suppress > 0 then { st with suppress := st.suppress - 1 }
  else if st.hasTransport = false then
    match st.eventLog with
    | some log =>
      { st with eventLog := some (log ++
          [Envelope.encode ⟨.crdtUpdate, st.peerId, Option.none, updateBytes, 1⟩]) }
    | Option.none => st
  else if st.queue.length < 1024 then
    { st with
      queue := st.queue ++ [updateBytes]
      drained := if st.pendingCount = 0 then false else st.drained
      pendingCount := st.pendingCount + 1 }
  else st

/-- One iteration of `DiffBroadcaster.send_loop` once a blob is available:
dequeue it; `broadcast_update` appends a `CRDT_UPDATE` envelope to the
event log (when a transport and a log are bound) and attempts the
transport send, whose outcome is `sendOk`; the `finally` block then
decrements the pending counter when positive and sets the drained event
when the counter is zero; a failed send breaks out of the loop. Returns
the new state and whether the loop continues. -/
def DiffBroadcaster.sendLoopIter (st : DiffBroadcaster) (sendOk : Bool) :
    DiffBroadcaster × Bool :=
  match st.queue with
  | [] => (st, false)
  | u :: rest =>
    let st1 := { st with queue := rest }
    let st2 :=
      if st1.hasTransport then
        match st1.eventLog with
        | some log =>
          { st1 with eventLog := some (log ++
              [Envelope.encode ⟨.crdtUpdate, st1.peerId, Option.none, u, 1⟩]) }
        | Option.none => st1
      else st1
    let c := if st2.pendingCount > 0 then st2.pendingCount - 1 else st2.pendingCount
    ({ st2 with
        pendingCount := c
        drained := if c = 0 then true else st2.drained }, sendOk)

/-- `JOIN` registration in the hub's client map: replace any prior socket
registered under the peer id, else add the pair. -/
def insertClient (clients : List (Int × Nat)) (pid : Int) (ws : Nat) :
    List (Int × Nat) :=
  if clients.any (fun c => decide (c.1 = pid)) then
    clients.map (fun c => if c.1 = pid then (pid, ws) else c)
  else clients ++ [(pid, ws)]

/-- One frame through `WebSocketServer._handler`'s message loop: decode
the raw frame (malformed frames are dropped); when an authenticated peer
id was bound at admission, drop any envelope whose sender differs
(spoofing defence); on `JOIN` register the socket under the sender;
deliver the envelope to the bound message callback; fan the raw frame out
to every registered client other than the sender. Returns the new client
map, the envelope delivered to the callback (if any), and the performed
raw sends as `(socket, frame)` pairs. -/
def hubHandleFrame (authPid : Option Int) (clients : List (Int × Nat))
    (ws : Nat) (message : MPacket) :
    List (Int × Nat) × Option Envelope × List (Nat × MPacket) :=
  match Envelope.decode message with
  | .error _ => (clients, Option.none, [])
  | .ok env =>
    if (match authPid with
        | some a => decide (env.sender ≠ a)
        | Option.none => false) then
      (clients, Option.none, [])
    else
      let clients' :=
        if env.msgType = MessageType.join then insertClient clients env.sender ws
        else clients
      (clients', some env,
        (clients'.filter (fun c => decide (c.1 ≠ env.sender))).map
          (fun c => (c.2, message)))

mutual

/-- Python values as `Namespace.set` can receive them: null, bools, ints,
floats (opaque bits, never interpreted), strings, byte strings, lists,
tuples, dicts with arbitrary keys, and `obj` for any other Python object.
Lists and dicts are separate inductives so the recursive validators are
structural. -/
inductive PyVal where
  | none : PyVal
  | bool (b : Bool) : PyVal
  | int (n : Int) : PyVal
  | float (bits : Nat) : PyVal
  | str (s : String) : PyVal
  | bytes (b : Bytes) : PyVal
  | list (xs : PyValList) : PyVal
  | tuple (xs : PyValList) : PyVal
  | dict (kvs : PyKVList) : PyVal
  | obj (id : Nat) : PyVal

inductive PyValList where
  | nil : PyValList
  | cons (v : PyVal) (rest : PyValList) : PyValList

inductive PyKVList where
  | nil : PyKVList
  | cons (k : PyVal) (v : PyVal) (rest : PyKVList) : PyKVList

end

/-- `isinstance(x, str)`. -/
def PyVal.isStr : PyVal → Bool
  | .str _ => true
  | _ => false

mutual

/-- `Namespace._is_supported_value`: the recursive whitelist — null, bool,
int, float, str, bytes; lists and tuples of supported values; dicts with
string keys and supported values; everything else unsupported. -/
def isSupportedValue : PyVal → Bool
  | .none => true
  | .bool _ => true
  | .int _ => true
  | .float _ => true
  | .str _ => true
  | .bytes _ => true
  | .list xs => allSupported xs
  | .tuple xs => allSupported xs
  | .dict kvs => allSupportedKV kvs
  | .obj _ => false

def allSupported : PyValList → Bool
  | .nil => true
  | .cons v rest => isSupportedValue v && allSupported rest

def allSupportedKV : PyKVList → Bool
  | .nil => true
  | .cons k v rest => (k.isStr && isSupportedValue v) && allSupportedKV rest

end

mutual

/-- `Namespace._normalize_value`: tuples (and lists) become lists with
normalized elements; dict values are normalized; scalars pass through. -/
def normalizeValue : PyVal → PyVal
  | .tuple xs => .list (normalizeList xs)
  | .list xs => .list (normalizeList xs)
  | .dict kvs => .dict (normalizeKV kvs)
  | v => v

def normalizeList : PyValList → PyValList
  | .nil => .nil
  | .cons v rest => .cons (normalizeValue v) (normalizeList rest)

def normalizeKV : PyKVList → PyKVList
  | .nil => .nil
  | .cons k v rest => .cons k (normalizeValue v) (normalizeKV rest)

end

/-- The map container behind a `Namespace`: string keys to stored
values. -/
abbrev LoroMap := List (String × PyVal)

/-- `LoroMap.insert`: bind the key to the value, replacing any prior
binding in place. -/
def loroMapInsert (m : LoroMap) (k : String) (v : PyVal) : LoroMap :=
  if m.any (fun e => decide (e.1 = k)) then
    m.map (fun e => if e.1 = k then (k, v) else e)
  else m ++ [(k, v)]

/-- `LoroMap.get` as the loro binding exposes it: Python `None` for an
absent key, and for a present key a `ValueOrContainer` wrapper — also when
the stored value is null, so a stored null comes back as
`some PyVal.none`, not as an absent-key `None`. -/
def loroMapGet (m : LoroMap) (k : String) : Option PyVal :=
  match m with
  | [] => Option.none
  | e :: rest => if e.1 = k then some e.2 else loroMapGet rest k

/-- The error kinds `Namespace` raises (messages elided). -/
inductive PyErr where
  | typeError : PyErr
  | valueError : PyErr
  | keyError (k : String) : PyErr
deriving DecidableEq

/-- `Namespace.set`: validate against the whitelist, raising `TypeError`
for unsupported shapes before any state change; normalize and insert. A
failure of the underlying insert is also mapped to `TypeError`; the
modelled insert is total, so that path does not arise. -/
def namespaceSet (m : LoroMap) (k : String) (v : PyVal) : Except PyErr LoroMap :=
  if !isSupportedValue v then .error .typeError
  else .ok (loroMapInsert m k (normalizeValue v))

/-- `Namespace.get`: an absent key gives the default; a present key's
`ValueOrContainer` wrapper is unwrapped to the stored value. -/
def namespaceGet (m : LoroMap) (k : String) (dflt : PyVal) : PyVal :=
  match loroMapGet m k with
  | Option.none => dflt
  | some v => v

/-- `Namespace.__getitem__`: `get` with default `None`, raising `KeyError`
when the result is `None`. -/
def namespaceGetItem (m : LoroMap) (k : String) : Except PyErr PyVal :=
  match namespaceGet m k PyVal.none with
  | PyVal.none => .error (.keyError k)
  | v => .ok v

/-- Modelled from the spec: an operation of the Loro operation-based CRDT
engine behind `CRDTStore` (the `loro` library is external to the
repository). Per the spec's replica algorithm, each operation carries its
author peer-id and a per-author sequence counter; its effect is modelled
as a last-writer-wins register write of a string value under a string
key. -/
structure ReplicaOp where
  peer : Nat
  counter : Nat
  key : String
  value : String
deriving DecidableEq

/-- Total order used to resolve concurrent writes deterministically:
lexicographic on (counter, peer), with key and value as final tiebreaks
(unreachable for well-formed histories, where `(peer, counter)` uniquely
identifies an operation). -/
instance : LinearOrder ReplicaOp :=
  LinearOrder.lift'
    (fun o => toLex (o.counter, toLex (o.peer, toLex (o.key, o.value))))
    (by
      intro a b h
      simp only [toLex_inj, Prod.mk.injEq] at h
      obtain ⟨h1, h2, h3, h4⟩ := h
      cases a
      cases b
      simp_all)

/-- Modelled from the spec: a replica's CRDT state is the set of
operations it has applied — applying an operation already represented in
the version vector is a no-op, so `import_updates` of a blob carrying a
set of operations is set union (`CRDTStore.import_updates` delegates to
`LoroDoc.import_batch`). -/
def importUpdates (st : Finset ReplicaOp) (u : Finset ReplicaOp) :
    Finset ReplicaOp :=
  st ∪ u

/-- Replace-or-append write into a canonical key/value association
list. -/
def upsert (m : List (String × String)) (k v : String) :
    List (String × String) :=
  if m.any (fun e => decide (e.1 = k)) then
    m.map (fun e => if e.1 = k then (k, v) else e)
  else m ++ [(k, v)]

/-- Modelled from the spec: `CRDTStore.get_deep_value` after
canonicalization — replay the applied operations in their canonical
(ascending LWW) order into a key/value map, so each key ends up at the
value of its greatest writer. A deterministic function of the applied-op
set alone. -/
def getDeepValue (st : Finset ReplicaOp) : List (String × String) :=
  (st.sort (· ≤ ·)).foldl (fun m o => upsert m o.key o.value) []

theorem enforceEntriesCap_fst (k : Nat) (es : List Bytes) (tb : Nat) :
    (enforceEntriesCap k es tb).1 = lastN k es := by
  induction es generalizing tb with
  | nil => simp [enforceEntriesCap, lastN]
  | cons e rest ih =>
    by_cases h : (e :: rest).length > k
    · have hk : k ≤ rest.length := by simp at h; omega
      have : (e :: rest).length - k = (rest.length - k) + 1 := by
        simp; omega
      simp only [enforceEntriesCap, if_pos h, ih, lastN, this, List.drop_succ_cons]
    · have : (e :: rest).length - k = 0 := by simp at h ⊢; omega
      simp only [enforceEntriesCap, if_neg h, lastN, this, List.drop_zero]

theorem enforceEntriesCap_snd (k : Nat) (es : List Bytes) (tb : Nat)
    (h : tb = sumLen es) :
    (enforceEntriesCap k es tb).2 = sumLen (enforceEntriesCap k es tb).1 := by
  induction es generalizing tb with
  | nil => simpa [enforceEntriesCap] using h
  | cons e rest ih =>
    by_cases hgt : (e :: rest).length > k
    · simp only [enforceEntriesCap, if_pos hgt]
      exact ih _ (by simp [h, sumLen])
    · simp only [enforceEntriesCap, if_neg hgt]
      simpa using h

theorem enforceBytesCap_len (b : Nat) (es : List Bytes) (tb : Nat) :
    (enforceBytesCap b es tb).1.length ≤ es.length := by
  induction es generalizing tb with
  | nil => simp [enforceBytesCap]
  | cons e rest ih =>
    by_cases hgt : tb > b
    · simp only [enforceBytesCap, if_pos hgt]
      exact le_trans (ih _) (by simp)
    · simp [enforceBytesCap, if_neg hgt]

theorem enforceBytesCap_snd (b : Nat) (es : List Bytes) (tb : Nat)
    (h : tb = sumLen es) :
    (enforceBytesCap b es tb).2 = sumLen (enforceBytesCap b es tb).1 := by
  induction es generalizing tb with
  | nil => simpa [enforceBytesCap] using h
  | cons e rest ih =>
    by_cases hgt : tb > b
    · simp only [enforceBytesCap, if_pos hgt]
      exact ih _ (by simp [h, sumLen])
    · simp only [enforceBytesCap, if_neg hgt]
      simpa using h

theorem enforceBytesCap_sum_le (b : Nat) (es : List Bytes) (tb : Nat)
    (h : tb = sumLen es) :
    sumLen (enforceBytesCap b es tb).1 ≤ b := by
  induction es generalizing tb with
  | nil => simp [enforceBytesCap, sumLen]
  | cons e rest ih =>
    by_cases hgt : tb > b
    · simp only [enforceBytesCap, if_pos hgt]
      exact ih _ (by simp [h, sumLen])
    · simp only [enforceBytesCap, if_neg hgt]
      omega

theorem lastN_length_le (k : Nat) (l : List α) : (lastN k l).length ≤ k := by
  simp only [lastN, List.length_drop]
  omega

theorem lastN_lastN_append (k : Nat) (xs l : List α) :
    lastN k (lastN k xs ++ l) = lastN k (xs ++ l) := by
  by_cases h : xs.length ≤ k
  · have h0 : xs.length - k = 0 := by omega
    simp [lastN, h0]
  · push_neg at h
    have hd : xs.length - k ≤ xs.length := Nat.sub_le _ _
    unfold lastN
    rw [List.length_append, List.length_append, List.length_drop]
    have h1 : xs.length - (xs.length - k) = k := by omega
    rw [h1]
    have h2 : k + l.length - k = l.length := by omega
    have kk : ((xs ++ l).drop (xs.length - k)).drop l.length =
        (xs ++ l).drop (xs.length + l.length - k) := by
      rw [List.drop_drop]
      congr 1
      omega
    rw [h2, ← kk, List.drop_append_of_le_length hd]

theorem EventLog.append_config (st : EventLog) (a : Bytes) :
    (st.append a).maxEntries = st.maxEntries ∧
    (st.append a).maxBytes = st.maxBytes := by
  unfold EventLog.append
  dsimp only
  split <;> (try split) <;> exact ⟨rfl, rfl⟩

theorem EventLog.append_mem (st : EventLog) (a : Bytes) :
    (st.append a).entries =
      (enforceLimits { st with
        entries := st.entries ++ [a]
        totalBytes := st.totalBytes + a.length }).entries ∧
    (st.append a).totalBytes =
      (enforceLimits { st with
        entries := st.entries ++ [a]
        totalBytes := st.totalBytes + a.length }).totalBytes := by
  unfold EventLog.append
  dsimp only
  split <;> (try split) <;> exact ⟨rfl, rfl⟩

theorem EventLog.append_entries_capE (k : Nat) (st : EventLog) (a : Bytes)
    (hk : st.maxEntries = some k) (hb : st.maxBytes = none) :
    (st.append a).entries = lastN k (st.entries ++ [a]) := by
  rw [(EventLog.append_mem st a).1]
  unfold enforceLimits
  rw [hk, hb]
  exact enforceEntriesCap_fst k _ _

theorem EventLog.appendAll_entries_capE (k : Nat) (l : List Bytes) :
    ∀ st : EventLog, st.maxEntries = some k → st.maxBytes = none →
      st.entries.length ≤ k →
      (st.appendAll l).entries = lastN k (st.entries ++ l) := by
  induction l with
  | nil =>
    intro st _ _ hlen
    simp [EventLog.appendAll, lastN, Nat.sub_eq_zero_of_le hlen]
  | cons a l ih =>
    intro st hk hb hlen
    have hstep : st.appendAll (a :: l) = (st.append a).appendAll l := rfl
    have hcfg := EventLog.append_config st a
    rw [hstep,
      ih (st.append a) (hcfg.1.trans hk) (hcfg.2.trans hb)
        (by rw [EventLog.append_entries_capE k st a hk hb]; exact lastN_length_le k _),
      EventLog.append_entries_capE k st a hk hb, lastN_lastN_append]
    congr 1
    simp

theorem EventLog.append_caps_step (k b : Nat) (st : EventLog) (a : Bytes)
    (hk : st.maxEntries = some k) (hb : st.maxBytes = some b)
    (hinv : st.totalBytes = sumLen st.entries) :
    (st.append a).totalBytes = sumLen (st.append a).entries ∧
    (st.append a).entries.length ≤ k ∧
    sumLen (st.append a).entries ≤ b := by
  obtain ⟨he, ht⟩ := EventLog.append_mem st a
  have hinv' : st.totalBytes + a.length = sumLen (st.entries ++ [a]) := by
    simp [sumLen, hinv]
  rw [he, ht]
  unfold enforceLimits
  rw [hk, hb]
  have hsnd1 := enforceEntriesCap_snd k (st.entries ++ [a]) _ hinv'
  have hfst1 := enforceEntriesCap_fst k (st.entries ++ [a]) (st.totalBytes + a.length)
  refine ⟨enforceBytesCap_snd b _ _ hsnd1, ?_, enforceBytesCap_sum_le b _ _ hsnd1⟩
  calc (enforceBytesCap b _ _).1.length
      ≤ (enforceEntriesCap k (st.entries ++ [a]) (st.totalBytes + a.length)).1.length :=
        enforceBytesCap_len b _ _
    _ ≤ k := by rw [hfst1]; exact lastN_length_le k _

theorem EventLog.appendAll_caps (k b : Nat) (l : List Bytes) :
    ∀ st : EventLog, st.maxEntries = some k → st.maxBytes = some b →
      st.totalBytes = sumLen st.entries →
      st.entries.length ≤ k → sumLen st.entries ≤ b →
      (st.appendAll l).entries.length ≤ k ∧
      sumLen (st.appendAll l).entries ≤ b := by
  induction l with
  | nil => intro st _ _ _ h1 h2; exact ⟨h1, h2⟩
  | cons a l ih =>
    intro st hk hb hinv _ _
    have hcfg := EventLog.append_config st a
    obtain ⟨i1, i2, i3⟩ := EventLog.append_caps_step k b st a hk hb hinv
    exact ih (st.append a) (hcfg.1.trans hk) (hcfg.2.trans hb) i1 i2 i3

theorem be32_pack32_append (n : Nat) (s : Bytes) (h : n < 2 ^ 32) :
    be32 (pack32 n ++ s) = n := by
  simp only [pack32, List.cons_append, List.nil_append, be32]
  omega

theorem loadFramesAux_truncated (t : Bytes)
    (ht : t.length < 4 ∨ t.length - 4 < be32 t) :
    ∀ fuel, loadFramesAux fuel t = [] := by
  intro fuel
  cases fuel with
  | zero => rfl
  | succ f =>
    rcases ht with h | h
    · simp [loadFramesAux, h]
    · by_cases h4 : t.length < 4
      · simp [loadFramesAux, h4]
      · simp [loadFramesAux, h4, List.length_drop, h]

theorem loadFramesAux_frames (l : List Bytes) (t : Bytes)
    (hlen : ∀ a ∈ l, a.length < 2 ^ 32)
    (ht : t.length < 4 ∨ t.length - 4 < be32 t) :
    ∀ fuel, (framesOf l ++ t).length ≤ fuel →
      loadFramesAux fuel (framesOf l ++ t) = l := by
  induction l with
  | nil =>
    intro fuel _
    simpa [framesOf] using loadFramesAux_truncated t ht fuel
  | cons e l ih =>
    intro fuel hfuel
    have he : e.length < 2 ^ 32 := hlen e (by simp)
    have hdata : framesOf (e :: l) ++ t = pack32 e.length ++ (e ++ (framesOf l ++ t)) := by
      simp [framesOf, frame]
    rw [hdata] at hfuel ⊢
    have hdlen : (pack32 e.length ++ (e ++ (framesOf l ++ t))).length =
        4 + (e.length + (framesOf l ++ t).length) := by
      simp [pack32]
      omega
    cases fuel with
    | zero => exfalso; omega
    | succ f =>
      have h4 : ¬ (pack32 e.length ++ (e ++ (framesOf l ++ t))).length < 4 := by
        omega
      have hbe : be32 (pack32 e.length ++ (e ++ (framesOf l ++ t))) = e.length :=
        be32_pack32_append e.length _ he
      have hdrop : (pack32 e.length ++ (e ++ (framesOf l ++ t))).drop 4 =
          e ++ (framesOf l ++ t) := by
        rw [show (4 : Nat) = (pack32 e.length).length from rfl, List.drop_left]
      have hnlt : ¬ (e ++ (framesOf l ++ t)).length < e.length := by
        simp
      simp only [loadFramesAux, if_neg h4, hbe, hdrop, if_neg hnlt, List.take_left,
        List.drop_left]
      rw [ih (fun a ha => hlen a (List.mem_cons_of_mem e ha)) f (by omega)]

theorem loadFrames_frames (l : List Bytes) (t : Bytes)
    (hlen : ∀ a ∈ l, a.length < 2 ^ 32)
    (ht : t.length < 4 ∨ t.length - 4 < be32 t) :
    loadFrames (framesOf l ++ t) = l :=
  loadFramesAux_frames l t hlen ht _ le_rfl

theorem EventLog.append_nocaps (st : EventLog) (a : Bytes) (f : Bytes)
    (h1 : st.maxEntries = none) (h2 : st.maxBytes = none) (hf : st.file = some f) :
    st.append a = { st with
      entries := st.entries ++ [a]
      totalBytes := st.totalBytes + a.length
      file := some (f ++ frame a) } := by
  unfold EventLog.append enforceLimits EventLog.shouldRewrite
  simp [h1, h2, hf]

theorem EventLog.appendAll_nocaps (l : List Bytes) :
    ∀ (st : EventLog) (f : Bytes), st.maxEntries = none → st.maxBytes = none →
      st.file = some f →
      (st.appendAll l).file = some (f ++ framesOf l) ∧
      (st.appendAll l).entries = st.entries ++ l := by
  induction l with
  | nil => intro st f h1 h2 hf; simp [EventLog.appendAll, framesOf, hf]
  | cons a l ih =>
    intro st f h1 h2 hf
    have hstep : st.appendAll (a :: l) = (st.append a).appendAll l := rfl
    rw [hstep, EventLog.append_nocaps st a f h1 h2 hf]
    obtain ⟨g1, g2⟩ := ih
      { st with
        entries := st.entries ++ [a]
        totalBytes := st.totalBytes + a.length
        file := some (f ++ frame a) } (f ++ frame a) h1 h2 rfl
    rw [g1, g2]
    constructor
    · congr 1
      simp [framesOf]
    · simp

/-- C4: for a log constructed with `max_entries = k` (and no byte cap),
after more than `k` appends `len` equals `k` and the retained entries are
exactly the most recent `k` appended entries in order; moreover, with both
an entry-count cap and a byte-size cap configured, every sequence of
appends leaves both caps satisfied (oldest entries are dropped after each
append until they are). -/
theorem eventLog_retention (k : Nat) (l : List Bytes) (h : k < l.length) :
    ((mkEventLog (some k) none none).appendAll l).entries =
      l.drop (l.length - k) ∧
    ((mkEventLog (some k) none none).appendAll l).entries.length = k ∧
    ∀ (b : Nat) (l' : List Bytes),
      ((mkEventLog (some k) (some b) none).appendAll l').entries.length ≤ k ∧
      sumLen ((mkEventLog (some k) (some b) none).appendAll l').entries ≤ b := by
  have hmain := EventLog.appendAll_entries_capE k l (mkEventLog (some k) none none)
    rfl rfl (by simp [mkEventLog])
  have hent : ((mkEventLog (some k) none none).appendAll l).entries =
      l.drop (l.length - k) := by
    simpa [mkEventLog, lastN] using hmain
  refine ⟨hent, ?_, ?_⟩
  · rw [hent, List.length_drop]
    omega
  · intro b l'
    exact EventLog.appendAll_caps k b l' (mkEventLog (some k) (some b) none)
      rfl rfl (by simp [mkEventLog, sumLen]) (by simp [mkEventLog])
      (by simp [mkEventLog, sumLen])

/-- Witness for C4 at the spec's S4 scenario: `max_entries = 2`, appends
`b"a"`, `b"b"`, `b"c"`; replay yields `[b"b", b"c"]`. -/
theorem eventLog_retention_witness :
    ((mkEventLog (some 2) none none).appendAll [[97], [98], [99]]).entries =
      [[98], [99]] := by
  have h := eventLog_retention 2 [[97], [98], [99]] (by decide)
  simpa using h.1

/-- C5 (amended): for a file-backed log with no retention caps and entries
each shorter than `2 ^ 32` bytes, the backing file after a sequence of
appends is exactly the frame sequence of those entries, a fresh log opened
on that file replays them in order, and the frame parser stops cleanly
(without failing) at any truncated trailing frame. -/
theorem eventLog_durability (l : List Bytes)
    (hlen : ∀ a ∈ l, a.length < 2 ^ 32) :
    ((mkEventLog none none (some [])).appendAll l).file = some (framesOf l) ∧
    (mkEventLog none none (some (framesOf l))).replay = l ∧
    ∀ t : Bytes, (t.length < 4 ∨ t.length - 4 < be32 t) →
      loadFrames (framesOf l ++ t) = l := by
  refine ⟨?_, ?_, ?_⟩
  · obtain ⟨g1, _⟩ :=
      EventLog.appendAll_nocaps l (mkEventLog none none (some [])) [] rfl rfl rfl
    simpa using g1
  · show loadFrames (framesOf l) = l
    have h0 := loadFrames_frames l [] hlen (by simp [be32])
    simpa using h0
  · intro t ht
    exact loadFrames_frames l t hlen ht

/-- Witness for C5 (amended) at the spec's S3 scenario: append `b"data1"`,
`b"data2"`; a fresh log at the same path replays both in order. -/
theorem eventLog_durability_witness :
    (mkEventLog none none
      (some (framesOf [[100, 97, 116, 97, 49], [100, 97, 116, 97, 50]]))).replay =
      [[100, 97, 116, 97, 49], [100, 97, 116, 97, 50]] := by
  have h := eventLog_durability [[100, 97, 116, 97, 49], [100, 97, 116, 97, 50]]
    (by decide)
  exact h.2.1

/-- Counterexample to C5 as stated: the claim quantifies over *any*
file-backed event log, but for a log constructed with `max_entries = 1`,
appending `b"a"` then `b"b"` rewrites the file down to the single retained
entry, and a fresh log at the same path replays `[b"b"]`, not
`[b"a", b"b"]`. -/
theorem eventLog_durability_cx :
    ((mkEventLog (some 1) none (some [])).appendAll [[97], [98]]).file =
      some (frame [98]) ∧
    (mkEventLog (some 1) none (some (frame [98]))).replay = [[98]] ∧
    ([[98]] : List Bytes) ≠ [[97], [98]] := by decide

/-- C2: for every valid envelope (the message kind one of the six codes,
integer sender, integer-or-null target, bytes payload, positive integer
version), `decode(encode(e))` equals `e`. -/
theorem envelope_roundtrip (e : Envelope) (h : 1 ≤ e.version) :
    Envelope.decode (Envelope.encode e) = .ok e := by
  obtain ⟨mt, s, tg, p, v⟩ := e
  have h' : (1 : Int) ≤ v := h
  have hv : ¬ (v < 1) := by omega
  cases tg with
  | none =>
    cases mt <;>
      simp [Envelope.encode, Envelope.decode, mvalLookup, hasKey, MVal.isIntLike,
        MVal.isBin, MVal.binVal, MVal.asInt, msgTypeOf, msgTypeOfCode,
        MessageType.code, hv]
  | some t =>
    cases mt <;>
      simp [Envelope.encode, Envelope.decode, mvalLookup, hasKey, MVal.isIntLike,
        MVal.isBin, MVal.binVal, MVal.asInt, msgTypeOf, msgTypeOfCode,
        MessageType.code, hv]

/-- Witness for C2 at the spec's S2 scenario: the envelope
`{v=1, t=CRDT_UPDATE, s=12345, r=null, p=b"hello world"}` round-trips. -/
theorem envelope_roundtrip_witness :
    Envelope.decode (Envelope.encode
      ⟨.crdtUpdate, 12345, Option.none,
        [104, 101, 108, 108, 111, 32, 119, 111, 114, 108, 100], 1⟩) =
      .ok ⟨.crdtUpdate, 12345, Option.none,
        [104, 101, 108, 108, 111, 32, 119, 111, 114, 108, 100], 1⟩ :=
  envelope_roundtrip _ (by decide)

/-- C3 (amended): `decode` fails exactly on inputs that are not parseable,
are not a mapping, are missing one of the required fields `t`/`s`/`r`/`p`
(a missing `v` is *accepted* and defaults to 1), have a sender failing the
integer check, a non-null target failing the integer check, a non-bytes
payload, a version failing the positive-integer check, or an unknown
message kind. -/
theorem envelope_decode_rejection (w : MPacket) :
    isErr (Envelope.decode w) = decodeRejects w := by
  cases w with
  | garbage => rfl
  | packed v =>
    cases v with
    | nil => rfl
    | bool b => rfl
    | int n => rfl
    | str s => rfl
    | bin b => rfl
    | arr xs => rfl
    | map d =>
      simp only [Envelope.decode, decodeRejects]
      by_cases h1 : (hasKey d "t" && hasKey d "s" && hasKey d "r" && hasKey d "p") = true
      · rw [if_pos h1]
        simp only [h1, Bool.not_true, Bool.false_or]
        generalize (mvalLookup d "s").getD MVal.nil = sv
        generalize (mvalLookup d "r").getD MVal.nil = rv
        generalize (mvalLookup d "p").getD MVal.nil = pv
        generalize (mvalLookup d "t").getD MVal.nil = tv
        generalize (mvalLookup d "v").getD (MVal.int 1) = vv
        cases hS : sv.isIntLike <;>
          cases hP : pv.isBin <;>
            cases hV : vv.isIntLike <;>
              cases hmt : msgTypeOf tv <;>
                by_cases hlt : vv.asInt < 1 <;>
                  cases rv <;>
                    simp_all [isErr, MVal.isIntLike]
        all_goals
          rw [if_neg (by omega : ¬ vv.asInt < 1)]
          try simp [isErr, decide_eq_false (by omega : ¬ vv.asInt < 1)]
      · rw [if_neg h1]
        have h1' : (hasKey d "t" && hasKey d "s" && hasKey d "r" && hasKey d "p") = false := by
          simpa using h1
        simp [isErr, h1']

/-- Counterexample to C3 as stated: an encoded mapping lacking the `v` key
is *not* rejected — `decode` accepts it and defaults the version to 1. -/
theorem envelope_decode_rejection_cx :
    Envelope.decode
      (.packed (.map [("t", .int 1), ("s", .int 5), ("r", .nil), ("p", .bin [])])) =
      .ok { msgType := .crdtUpdate, sender := 5, target := Option.none,
            payload := [], version := 1 } := rfl

/-- C6: for a broadcaster with a bound transport and no pending
suppression, after one `suppress_next_local_update()` the next
local-update callback leaves the send queue, the pending counter, and the
suppression counter (decremented back) unchanged, and the local-update
callback after that one does enqueue its blob. -/
theorem broadcaster_suppression (st : DiffBroadcaster) (u1 u2 : Bytes)
    (h0 : st.suppress = 0) (ht : st.hasTransport = true)
    (hq : st.queue.length < 1024) :
    (st.suppressNextLocalUpdate.onLocalUpdate u1).queue = st.queue ∧
    (st.suppressNextLocalUpdate.onLocalUpdate u1).pendingCount = st.pendingCount ∧
    (st.suppressNextLocalUpdate.onLocalUpdate u1).suppress = st.suppress ∧
    ((st.suppressNextLocalUpdate.onLocalUpdate u1).onLocalUpdate u2).queue =
      st.queue ++ [u2] := by
  obtain ⟨sup, q, pc, dr, htr, el, pid⟩ := st
  simp only at h0 ht hq
  subst h0 ht
  simp [DiffBroadcaster.suppressNextLocalUpdate, DiffBroadcaster.onLocalUpdate, hq]

/-- Witness for C6: a fresh transport-bound broadcaster; after one
suppression the first callback enqueues nothing and the second enqueues
its blob. -/
theorem broadcaster_suppression_witness :
    ((⟨0, [], 0, true, true, Option.none, 1⟩ :
        DiffBroadcaster).suppressNextLocalUpdate.onLocalUpdate [7]).queue = [] ∧
    (((⟨0, [], 0, true, true, Option.none, 1⟩ :
        DiffBroadcaster).suppressNextLocalUpdate.onLocalUpdate [7]).onLocalUpdate
      [8]).queue = [[8]] := by
  have h := broadcaster_suppression ⟨0, [], 0, true, true, Option.none, 1⟩ [7] [8]
    rfl rfl (by decide)
  exact ⟨h.1, by simpa using h.2.2.2⟩

/-- C7 (amended): in the send loop, the pending counter is decremented
after each send *attempt* — successful or failed, since the decrement sits
in a `finally` block — with a floor of zero, and the drained signal is set
exactly when the counter is zero after the decrement (in particular on the
1→0 transition); a failed send exits the loop. -/
theorem broadcaster_drain (st : DiffBroadcaster) (sendOk : Bool)
    (u : Bytes) (rest : List Bytes) (hq : st.queue = u :: rest) :
    (st.sendLoopIter sendOk).1.pendingCount = st.pendingCount - 1 ∧
    (st.sendLoopIter sendOk).1.drained =
      (if st.pendingCount - 1 = 0 then true else st.drained) ∧
    (st.sendLoopIter sendOk).2 = sendOk := by
  obtain ⟨sup, q, pc, dr, htr, el, pid⟩ := st
  simp only at hq
  subst hq
  have hc : (if pc > 0 then pc - 1 else pc) = pc - 1 := by
    split <;> omega
  cases htr <;> cases el <;>
    simp [DiffBroadcaster.sendLoopIter, hc]

/-- Witness for C7 (amended): a successful send on a two-pending state
leaves the counter at 1. -/
theorem broadcaster_drain_witness :
    ((⟨0, [[9]], 2, false, true, Option.none, 3⟩ :
        DiffBroadcaster).sendLoopIter true).1.pendingCount = 1 := by
  have h := broadcaster_drain ⟨0, [[9]], 2, false, true, Option.none, 3⟩ true [9] [] rfl
  simpa using h.1

/-- Counterexample to C7 as stated: the claim says the counter is *not*
decremented on a failed send, but the decrement sits in a `finally` block,
so a failed send on a state with one pending update still brings the
counter from 1 to 0. -/
theorem broadcaster_drain_cx :
    ((⟨0, [[7]], 1, false, true, Option.none, 1⟩ :
        DiffBroadcaster).sendLoopIter false).1.pendingCount = 0 ∧
    (0 : Nat) ≠ 1 := by
  refine ⟨rfl, by decide⟩

/-- C9: in the hub's message loop with an admission-bound peer id, a
decodable frame whose envelope sender differs from the bound id is dropped
without side effects: the client map is unchanged, the message callback is
not invoked (hence no registry update, no replica import, no event-log
append), and nothing is fanned out to any client. -/
theorem hub_sender_spoofing (a : Int) (clients : List (Int × Nat)) (ws : Nat)
    (message : MPacket) (env : Envelope)
    (hdec : Envelope.decode message = .ok env) (hne : env.sender ≠ a) :
    hubHandleFrame (some a) clients ws message = (clients, Option.none, []) := by
  simp [hubHandleFrame, hdec, hne]

/-- Witness for C9: with bound peer id 1, a well-formed frame claiming
sender 2 leaves the client map untouched, reaches no handler, and is sent
to nobody. -/
theorem hub_sender_spoofing_witness :
    hubHandleFrame (some 1) [(3, 30)] 99
      (Envelope.encode ⟨.crdtUpdate, 2, Option.none, [], 1⟩) =
      ([(3, 30)], Option.none, []) :=
  hub_sender_spoofing 1 [(3, 30)] 99 _ ⟨.crdtUpdate, 2, Option.none, [], 1⟩
    rfl (by decide)

/-- C8 (amended): every value outside the recursive whitelist makes
`Namespace.set` fail with `TypeError` — not `ValueError` — before any
state change (no insert happens), and whitelisted tuples are normalized to
sequences before writing. -/
theorem namespace_set_whitelist (m : LoroMap) (k : String) (v : PyVal)
    (hbad : isSupportedValue v = false) :
    namespaceSet m k v = .error .typeError ∧
    ∀ xs : PyValList, isSupportedValue (.tuple xs) = true →
      namespaceSet m k (.tuple xs) =
        .ok (loroMapInsert m k (.list (normalizeList xs))) := by
  constructor
  · simp [namespaceSet, hbad]
  · intro xs hgood
    simp [namespaceSet, hgood, normalizeValue]

/-- Witness for C8 (amended): an opaque object is rejected with
`TypeError`, and the tuple `(1, 2)` is stored as the list `[1, 2]`. -/
theorem namespace_set_whitelist_witness :
    namespaceSet [] "bad" (.obj 0) = .error .typeError ∧
    namespaceSet [] "bad" (.tuple (.cons (.int 1) (.cons (.int 2) .nil))) =
      .ok [("bad", .list (.cons (.int 1) (.cons (.int 2) .nil)))] := by
  have h := namespace_set_whitelist [] "bad" (.obj 0) rfl
  refine ⟨h.1, ?_⟩
  have h2 := h.2 (.cons (.int 1) (.cons (.int 2) .nil)) rfl
  simpa [loroMapInsert, normalizeList, normalizeValue] using h2

/-- Counterexample to C8 as stated: the claim says an unsupported value
fails with `ValueError`, but `Namespace.set` raises `TypeError` (which the
repository's own tests assert). -/
theorem namespace_set_valueerror_cx :
    namespaceSet [] "bad" (.obj 0) = .error .typeError ∧
    (Except.error PyErr.typeError : Except PyErr LoroMap) ≠ .error .valueError :=
  ⟨rfl, fun h => PyErr.noConfusion (Except.error.inj h)⟩

/-- C10 (amended): a key whose stored value is null is indistinguishable
from an absent key for subscript access — `ns[k]` raises `KeyError` even
though the key is present — but `Namespace.get(k, default)` returns the
unwrapped stored null (Python `None`), not the default argument, whatever
the default is. -/
theorem namespace_null_reads (m : LoroMap) (k : String)
    (hnull : loroMapGet m k = some PyVal.none) :
    (∀ dflt : PyVal, namespaceGet m k dflt = PyVal.none) ∧
    namespaceGetItem m k = .error (.keyError k) := by
  constructor
  · intro dflt
    simp [namespaceGet, hnull]
  · simp [namespaceGetItem, namespaceGet, hnull]

/-- Witness for C10 (amended): with `k` bound to null, `get` with default
`7` returns null, and subscript access raises `KeyError`. -/
theorem namespace_null_reads_witness :
    namespaceGet [("k", PyVal.none)] "k" (.int 7) = PyVal.none ∧
    namespaceGetItem [("k", PyVal.none)] "k" = .error (.keyError "k") := by
  have h := namespace_null_reads [("k", PyVal.none)] "k" rfl
  exact ⟨h.1 (.int 7), h.2⟩

/-- Counterexample to C10 as stated: the claim says `get` on a stored null
returns the default argument, but with default `7` it returns the stored
null instead. -/
theorem namespace_null_default_cx :
    namespaceGet [("k", PyVal.none)] "k" (PyVal.int 7) = PyVal.none ∧
    PyVal.none ≠ PyVal.int 7 :=
  ⟨rfl, fun h => PyVal.noConfusion h⟩

/-- C1: importing two update blobs in either order yields the same
canonical deep value, and more generally replicas that apply the same
operations in any order (from the same starting state) observe identical
canonical deep values. -/
theorem crdt_convergence :
    (∀ st u1 u2 : Finset ReplicaOp,
      getDeepValue (importUpdates (importUpdates st u1) u2) =
        getDeepValue (importUpdates (importUpdates st u2) u1)) ∧
    (∀ (st : Finset ReplicaOp) (l1 l2 : List (Finset ReplicaOp)),
      l1.Perm l2 →
      getDeepValue (l1.foldl importUpdates st) =
        getDeepValue (l2.foldl importUpdates st)) := by
  constructor
  · intro st u1 u2
    unfold importUpdates
    rw [Finset.union_right_comm]
  · intro st l1 l2 hp
    induction hp generalizing st with
    | nil => rfl
    | cons x _ ih =>
      simp only [List.foldl_cons]
      exact ih _
    | swap x y l =>
      simp only [List.foldl_cons]
      rw [show importUpdates (importUpdates st y) x =
            importUpdates (importUpdates st x) y from Finset.union_right_comm st y x]
    | trans _ _ ih1 ih2 =>
      exact (ih1 st).trans (ih2 st)

/-- Witness for C1: delivering two singleton updates in either order to
an empty replica yields the same canonical deep value. -/
theorem crdt_convergence_witness :
    getDeepValue (List.foldl importUpdates ∅
        [{⟨1, 1, "tasks", "plan"⟩}, {⟨2, 1, "peers", "two"⟩}]) =
      getDeepValue (List.foldl importUpdates ∅
        [{⟨2, 1, "peers", "two"⟩}, {⟨1, 1, "tasks", "plan"⟩}]) :=
  crdt_convergence.2 ∅ _ _ (List.Perm.swap _ _ _)

end Plutus
